import Mathlib

/-!
Verification development for the stripe-tax-reporter core pipeline:
record extraction (src/report/generator.rs), deterministic sorting and
totals (ReportGenerator), grouped TSV formatting (src/report/formatter.rs)
and previous-quarter computation (src/report/quarter.rs).

Modelling conventions:
* Rust `i64`/`Int` monetary amounts are modelled as `Int` (no claim here
  concerns 64-bit wraparound); the `i32 -> u32` cast in
  `sum_subscription_quantities` is modelled explicitly with `% 2 ^ 32`.
* Rust `String` is modelled as Lean `String`; Rust byte-lexicographic
  `Ord` agrees with code-point order on well-formed UTF-8, which is the
  order of Lean `String`.
* `str::to_uppercase` is modelled character-wise (ASCII-faithful).
* Fallible functions return `Except ExtractError _`; the anyhow error
  strings of the source are mapped to the spec's error taxonomy.
-/

deriving instance DecidableEq for Except

/-- Lexicographic order on character lists by code point: the order of
Rust `String` (byte-lexicographic on UTF-8 equals code-point order).
Structurally recursive so that concrete comparisons evaluate. -/
def lexLtB : List Char → List Char → Bool
  | [], [] => false
  | [], _ :: _ => true
  | _ :: _, [] => false
  | a :: as, b :: bs => if a < b then true else if b < a then false else lexLtB as bs

/-- Models `a < b` for Rust strings. -/
def strLtB (a b : String) : Bool := lexLtB a.data b.data

/-- Models `stripe::client::Address`; only `state` is consumed by the core. -/
structure Address where
  city : Option String
  country : Option String
  line1 : Option String
  line2 : Option String
  postal_code : Option String
  state : Option String
deriving DecidableEq

/-- Models `stripe::client::Customer`. -/
structure Customer where
  id : String
  name : Option String
  address : Option Address
deriving DecidableEq

/-- Models `stripe::client::BillingDetails`. -/
structure BillingDetails where
  address : Option Address
deriving DecidableEq

/-- Models `stripe::client::Charge`. -/
structure Charge where
  id : String
  balance_transaction : Option String
  billing_details : Option BillingDetails
deriving DecidableEq

/-- Models `stripe::client::BalanceTransaction` (`fee` is an `i64`). -/
structure BalanceTransaction where
  id : String
  fee : Int
deriving DecidableEq

/-- Models `stripe::client::TaxAmount`. -/
structure TaxAmount where
  amount : Int
deriving DecidableEq

/-- Models `stripe::client::LineItem`. `quantity` is an `Option i32`
(values lie in the i32 range); `amount` is an `i64`. -/
structure LineItem where
  id : String
  line_type : String
  amount : Int
  quantity : Option Int
deriving DecidableEq

/-- Models `stripe::client::LineItems`. -/
structure LineItems where
  data : List LineItem
deriving DecidableEq

/-- Models the `serde_json::Value` stored in `StripeInvoice.customer`:
either a bare string, or a JSON object of which the code only consumes
the string values of the id and name keys (recorded here as the results
of the two as_str lookups), or any other JSON value. -/
inductive CustomerValue where
  | str (s : String)
  | obj (idField : Option String) (nameField : Option String)
  | other
deriving DecidableEq

/-- Models `stripe::client::StripeInvoice`. `charge` is an
`Option serde_json::Value` of which only the string case is ever
consumed, so it is modelled by that case. -/
structure StripeInvoice where
  id : String
  customer : CustomerValue
  customer_name : Option String
  customer_address : Option Address
  status : String
  created : Int
  paid_at : Option Int
  amount_due : Int
  amount_paid : Int
  tax : Option Int
  lines : LineItems
  charge : Option String
deriving DecidableEq

/-- Models `stripe::models::InvoiceRecord` (`users` is a `u32`). -/
structure InvoiceRecord where
  date : String
  customer : String
  users : Nat
  state : String
  licenses : Int
  tax : Int
  total : Int
  fees : Int
deriving DecidableEq

/-- The spec's taxonomy for the anyhow errors produced by extraction. -/
inductive ExtractError where
  | invalidTimestamp
  | missingCustomerIdentity
  | missingBillingState
deriving DecidableEq

/-- Character-wise uppercasing, modelling `str::to_uppercase` (which the
source only ever applies to state codes; ASCII-faithful). -/
def toUppercase (s : String) : String :=
  String.mk (s.data.map Char.toUpper)

/-- Gregorian calendar date for a day count relative to 1970-01-01
(Howard Hinnant's civil-from-days algorithm, as used by chrono's
conversion from a Unix timestamp to a UTC calendar date). -/
def civilFromDays (z0 : Int) : Int × Nat × Nat :=
  let z := z0 + 719468
  let era := z.fdiv 146097
  let doe := (z - era * 146097).toNat
  let yoe := (doe - doe / 1460 + doe / 36524 - doe / 146096) / 365
  let y := (yoe : Int) + era * 400
  let doy := doe - (365 * yoe + yoe / 4 - yoe / 100)
  let mp := (5 * doy + 2) / 153
  let d := doy - (153 * mp + 2) / 5 + 1
  let m := if mp < 10 then mp + 3 else mp - 9
  (if m ≤ 2 then y + 1 else y, m, d)

/-- Zero-pads a month or day to two digits (`%m`, `%d`). -/
def pad2 (n : Nat) : String :=
  if n < 10 then "0" ++ toString n else toString n

/-- Zero-pads a year to at least four digits (`%Y` for common years). -/
def pad4 (n : Nat) : String :=
  if n < 10 then "000" ++ toString n
  else if n < 100 then "00" ++ toString n
  else if n < 1000 then "0" ++ toString n
  else toString n

/-- Renders a calendar date in the `%m/%d/%Y` format of chrono. -/
def formatMMDDYYYY (ymd : Int × Nat × Nat) : String :=
  pad2 ymd.2.1 ++ "/" ++ pad2 ymd.2.2 ++ "/" ++
    (if ymd.1 < 0 then "-" ++ pad4 (-ymd.1).toNat else pad4 ymd.1.toNat)

/-- Models `format_invoice_date`: chrono's `DateTime::from_timestamp`
returns `None` exactly when the timestamp falls outside the reachable
calendar range (years -262144 to 262143), in which case the source
returns the invalid-timestamp error; otherwise the UTC calendar date is
rendered as `MM/DD/YYYY`. -/
def formatInvoiceDate (timestamp : Int) : Except ExtractError String :=
  let ymd := civilFromDays (timestamp.fdiv 86400)
  if -262144 ≤ ymd.1 ∧ ymd.1 ≤ 262143 then .ok (formatMMDDYYYY ymd)
  else .error .invalidTimestamp

/-- Models the `match &invoice.customer` arm of `extract_customer_name`:
a non-empty bare string is used directly; an object yields its string id,
else its string name; anything else (including an empty bare string,
whose match guard fails) is the missing-identity error. -/
def customerNameFromValue (invoice : StripeInvoice) : Except ExtractError String :=
  match invoice.customer with
  | .str s => if s = "" then .error .missingCustomerIdentity else .ok s
  | .obj idField nameField =>
    match idField with
    | some i => .ok i
    | none =>
      match nameField with
      | some n => .ok n
      | none => .error .missingCustomerIdentity
  | .other => .error .missingCustomerIdentity

/-- Models `extract_customer_name`: a non-empty denormalized
`customer_name` wins, else the customer reference is resolved. -/
def extractCustomerName (invoice : StripeInvoice) : Except ExtractError String :=
  match invoice.customer_name with
  | some name => if name = "" then customerNameFromValue invoice else .ok name
  | none => customerNameFromValue invoice

/-- Models the third block of `extract_state_with_fallbacks`: the
invoice's own denormalized address, else the missing-state error. -/
def stateFromInvoice (invoice : StripeInvoice) : Except ExtractError String :=
  match invoice.customer_address with
  | some address =>
    match address.state with
    | some st => if st = "" then .error .missingBillingState else .ok (toUppercase st)
    | none => .error .missingBillingState
  | none => .error .missingBillingState

/-- Models the second block of `extract_state_with_fallbacks`: the
charge's billing-details address, else fall through to the invoice. -/
def stateFromCharge (charge : Option Charge) (invoice : StripeInvoice) :
    Except ExtractError String :=
  match charge with
  | some chg =>
    match chg.billing_details with
    | some bd =>
      match bd.address with
      | some address =>
        match address.state with
        | some st => if st = "" then stateFromInvoice invoice else .ok (toUppercase st)
        | none => stateFromInvoice invoice
      | none => stateFromInvoice invoice
    | none => stateFromInvoice invoice
  | none => stateFromInvoice invoice

/-- Models `extract_state_with_fallbacks`: linked customer's address
first, then the charge's billing address, then the invoice's address. -/
def extractStateWithFallbacks (customer : Option Customer) (charge : Option Charge)
    (invoice : StripeInvoice) : Except ExtractError String :=
  match customer with
  | some cust =>
    match cust.address with
    | some address =>
      match address.state with
      | some st => if st = "" then stateFromCharge charge invoice else .ok (toUppercase st)
      | none => stateFromCharge charge invoice
    | none => stateFromCharge charge invoice
  | none => stateFromCharge charge invoice

/-- Models `sum_subscription_quantities`: `quantity.unwrap_or(0) as u32`
is the two's-complement reinterpretation of the i32, i.e. `% 2 ^ 32`;
the `u32` summation wraps modulo `2 ^ 32` as well. -/
def sumSubscriptionQuantities (invoice : StripeInvoice) : Nat :=
  ((invoice.lines.data.filter (fun line => line.line_type = "subscription")).map
    (fun line => ((line.quantity.getD 0) % (2 ^ 32 : Int)).toNat)).foldl
    (fun acc n => (acc + n) % 2 ^ 32) 0

/-- Models `sum_license_amounts`: the sum of `amount` over subscription
line items. -/
def sumLicenseAmounts (invoice : StripeInvoice) : Int :=
  ((invoice.lines.data.filter (fun line => line.line_type = "subscription")).map
    (fun line => line.amount)).foldl (fun acc a => acc + a) 0

/-- The record-building part of
`ReportGenerator::process_invoice_with_customer`: date, customer name and
state are extracted fallibly (each `?` propagates the error), then the
numeric fields are computed and the record assembled. -/
def extractRecord (invoice : StripeInvoice) (customer : Option Customer)
    (charge : Option Charge) (balance_transaction : Option BalanceTransaction) :
    Except ExtractError InvoiceRecord :=
  match formatInvoiceDate (invoice.paid_at.getD invoice.created) with
  | .error e => .error e
  | .ok date =>
    match extractCustomerName invoice with
    | .error e => .error e
    | .ok customerName =>
      match extractStateWithFallbacks customer charge invoice with
      | .error e => .error e
      | .ok st =>
        let users := sumSubscriptionQuantities invoice
        let licenses := sumLicenseAmounts invoice
        let tax := invoice.tax.getD 0
        let total := licenses + tax
        let fees := match balance_transaction with
          | some bt => bt.fee
          | none => 0
        .ok { date := date, customer := customerName, users := users, state := st,
              licenses := licenses, tax := tax, total := total, fees := fees }

/-- Models `process_invoice_with_customer` acting on the generator's
record collection: on success the record is pushed, on failure the
error propagates and the collection is untouched. -/
def processInvoiceWithCustomer (records : List InvoiceRecord) (invoice : StripeInvoice)
    (customer : Option Customer) (charge : Option Charge)
    (balance_transaction : Option BalanceTransaction) :
    Except ExtractError Unit × List InvoiceRecord :=
  match extractRecord invoice customer charge balance_transaction with
  | .error e => (.error e, records)
  | .ok record => (.ok (), records ++ [record])

/-- Models `Ord::cmp` on Rust strings. -/
def cmpStr (a b : String) : Ordering :=
  if strLtB a b then .lt else if a = b then .eq else .gt

/-- Models the comparator closure of `ReportGenerator::sort_records`:
state, then date (as the rendered `MM/DD/YYYY` string), then customer. -/
def cmpRecord (a b : InvoiceRecord) : Ordering :=
  match cmpStr a.state b.state with
  | .eq =>
    match cmpStr a.date b.date with
    | .eq => cmpStr a.customer b.customer
    | ord => ord
  | ord => ord

/-- The non-strict order induced by the sort comparator. -/
def recordLe (a b : InvoiceRecord) : Prop := cmpRecord a b ≠ .gt

instance : DecidableRel recordLe := fun a b =>
  inferInstanceAs (Decidable (cmpRecord a b ≠ .gt))

/-- Models `sort_records`. Rust's `slice::sort_by` is a stable sort with
respect to the comparator; a stable sort's output is unique, so the
stable insertion sort with the same comparator computes it. -/
def sortRecords (records : List InvoiceRecord) : List InvoiceRecord :=
  List.insertionSort recordLe records

/-- One accumulation step of the totals loops: add a record's four
monetary fields to a running `(licenses, tax, total, fees)` tuple. -/
def totalsStep (t : Int × Int × Int × Int) (r : InvoiceRecord) : Int × Int × Int × Int :=
  (t.1 + r.licenses, t.2.1 + r.tax, t.2.2.1 + r.total, t.2.2.2 + r.fees)

/-- Componentwise addition of two totals tuples. -/
def tupleAdd (a b : Int × Int × Int × Int) : Int × Int × Int × Int :=
  (a.1 + b.1, a.2.1 + b.2.1, a.2.2.1 + b.2.2.1, a.2.2.2 + b.2.2.2)

/-- Models the per-record loop of `ReportGenerator::calculate_totals`,
which is also the subtotal loop of `format_as_tsv`. -/
def calculateTotals (records : List InvoiceRecord) : Int × Int × Int × Int :=
  records.foldl totalsStep (0, 0, 0, 0)

/-- One line of the formatter's output, with monetary cells carried as
the integer minor units that the source divides by 100.0 for display. -/
inductive TsvLine where
  | stateHeader (state : String)
  | columnHeader
  | dataRow (record : InvoiceRecord)
  | subtotalRow (licenses tax total fees : Int)
  | blankRow
  | grandTotalRow (licenses tax total fees : Int)
deriving DecidableEq

/-- Sorted-set insertion for state keys: models inserting into the
`BTreeMap` used by `format_as_tsv` to group records by state. -/
def insertKey (s : String) : List String → List String
  | [] => [s]
  | k :: ks =>
    if s = k then k :: ks
    else if strLtB s k then s :: k :: ks
    else k :: insertKey s ks

/-- The sorted distinct state codes of the record list: the key set of
the formatter's `BTreeMap`. -/
def stateKeys (records : List InvoiceRecord) : List String :=
  records.foldl (fun ks r => insertKey r.state ks) []

/-- The records grouped under state `s` (the `BTreeMap` preserves the
push order within one key). -/
def stateGroup (records : List InvoiceRecord) (s : String) : List InvoiceRecord :=
  records.filter (fun r => r.state = s)

/-- The lines `format_as_tsv` emits for one state section: header,
column header, the group's data rows, the subtotal row, a blank line. -/
def stateSection (records : List InvoiceRecord) (s : String) : List TsvLine :=
  let group := stateGroup records s
  let st := calculateTotals group
  [.stateHeader s, .columnHeader] ++ group.map .dataRow ++
    [.subtotalRow st.1 st.2.1 st.2.2.1 st.2.2.2, .blankRow]

/-- The grand totals `format_as_tsv` accumulates: the sum of the
per-state subtotals over the sections in key order. -/
def grandTotals (records : List InvoiceRecord) : Int × Int × Int × Int :=
  (stateKeys records).foldl
    (fun g s => tupleAdd g (calculateTotals (stateGroup records s)))
    (0, 0, 0, 0)

/-- Structured model of `format_as_tsv`: each emitted line as a
`TsvLine`, sections in `BTreeMap` key order, one grand-total row last. -/
def formatAsTsvLines (records : List InvoiceRecord) : List TsvLine :=
  ((stateKeys records).flatMap (stateSection records)) ++
    (let g := grandTotals records
     [.grandTotalRow g.1 g.2.1 g.2.2.1 g.2.2.2])

/-- The state codes carried by the section headers of an output. -/
def headerStates (lines : List TsvLine) : List String :=
  lines.filterMap (fun l =>
    match l with
    | .stateHeader s => some s
    | _ => none)

/-- Scans an output and checks that every data row is preceded by a
section header carrying exactly that row's state. -/
def rowsMatchHeaders : Option String → List TsvLine → Bool
  | _, [] => true
  | _, .stateHeader s :: rest => rowsMatchHeaders (some s) rest
  | cur, .dataRow r :: rest =>
    if some r.state = cur then rowsMatchHeaders cur rest else false
  | cur, _ :: rest => rowsMatchHeaders cur rest

/-- Scans an output and checks that every subtotal row equals the exact
integer sums of the data rows of its own section. -/
def subtotalsMatch : Int × Int × Int × Int → List TsvLine → Bool
  | _, [] => true
  | _, .stateHeader _ :: rest => subtotalsMatch (0, 0, 0, 0) rest
  | acc, .dataRow r :: rest => subtotalsMatch (totalsStep acc r) rest
  | acc, .subtotalRow l t tt f :: rest =>
    if acc = (l, t, tt, f) then subtotalsMatch acc rest else false
  | acc, _ :: rest => subtotalsMatch acc rest

/-- Recognizes the grand-total row. -/
def isGrandTotalRow : TsvLine → Bool
  | .grandTotalRow _ _ _ _ => true
  | _ => false

/-- Normalizes one optional state source the way each fallback block
does: an absent or empty string is no value. -/
def normalizeSource (o : Option String) : Option String :=
  match o with
  | some s => if s = "" then none else some s
  | none => none

/-- The spec's ordered three-source priority list for the billing
state: customer address, charge billing address, invoice address. -/
def stateSources (customer : Option Customer) (charge : Option Charge)
    (invoice : StripeInvoice) : List (Option String) :=
  [(customer.bind (fun c => c.address)).bind (fun a => a.state),
   ((charge.bind (fun c => c.billing_details)).bind (fun b => b.address)).bind
     (fun a => a.state),
   invoice.customer_address.bind (fun a => a.state)]

/-- First non-empty value of an ordered source list. -/
def firstNonEmpty (sources : List (Option String)) : Option String :=
  sources.findSome? normalizeSource

/-- The spec's ordered priority list for the customer name: non-empty
denormalized name, non-empty bare reference string, embedded object's
string id, embedded object's string name. -/
def customerNameSources (invoice : StripeInvoice) : List (Option String) :=
  [normalizeSource invoice.customer_name,
   (match invoice.customer with
    | .str s => normalizeSource (some s)
    | _ => none),
   (match invoice.customer with
    | .obj idField _ => idField
    | _ => none),
   (match invoice.customer with
    | .obj _ nameField => nameField
    | _ => none)]

/-- Spec-side helper: splits a character list at a separator. -/
def splitOnChar (sep : Char) : List Char → List (List Char)
  | [] => [[]]
  | c :: cs =>
    match splitOnChar sep cs with
    | [] => if c = sep then [[], []] else [[c]]
    | h :: t => if c = sep then [] :: h :: t else (c :: h) :: t

/-- Spec-side helper: reads a non-empty all-digit character list as a
decimal number. -/
def digitsToNat (cs : List Char) : Option Nat :=
  if cs ≠ [] ∧ cs.all (fun c => c.isDigit)
  then some (cs.foldl (fun n c => n * 10 + (c.toNat - 48)) 0)
  else none

/-- Spec-side helper: reads a rendered `MM/DD/YYYY` string back as a
calendar triple `(year, month, day)`, for stating calendar-order
properties. -/
def parseDateMMDDYYYY (s : String) : Option (Nat × Nat × Nat) :=
  match (splitOnChar '/' s.data).map digitsToNat with
  | [some m, some d, some y] => some (y, m, d)
  | _ => none

/-- Spec-side helper: a serial number that is monotone in calendar order
for valid dates (month and day below 100). -/
def calendarKey (s : String) : Option Nat :=
  (parseDateMMDDYYYY s).map (fun t => t.1 * 10000 + t.2.1 * 100 + t.2.2)

/-- Leap-year rule, as implemented by chrono's calendar arithmetic. -/
def isLeapYear (y : Int) : Bool :=
  (y % 4 == 0 && !(y % 100 == 0)) || (y % 400 == 0)

/-- Days in a month of the proleptic Gregorian calendar. -/
def daysInMonth (y : Int) (m : Nat) : Nat :=
  if m = 2 then (if isLeapYear y then 29 else 28)
  else if m = 4 ∨ m = 6 ∨ m = 9 ∨ m = 11 then 30
  else 31

/-- Models `NaiveDate - chrono::Duration::days(1)`. -/
def prevDay (d : Int × Nat × Nat) : Int × Nat × Nat :=
  if d.2.2 > 1 then (d.1, d.2.1, d.2.2 - 1)
  else if d.2.1 > 1 then (d.1, d.2.1 - 1, daysInMonth d.1 (d.2.1 - 1))
  else (d.1 - 1, 12, 31)

/-- The state code of the most recent section header seen by a scan. -/
def lastHeader (cur : Option String) (lines : List TsvLine) : Option String :=
  lines.foldl
    (fun c l =>
      match l with
      | .stateHeader s => some s
      | _ => c) cur

/-- The running data-row sums at the end of a scan: reset by a section
header, advanced by each data row. -/
def runningSubtotal (acc : Int × Int × Int × Int) (lines : List TsvLine) :
    Int × Int × Int × Int :=
  lines.foldl
    (fun a l =>
      match l with
      | .stateHeader _ => ((0 : Int), (0 : Int), (0 : Int), (0 : Int))
      | .dataRow r => totalsStep a r
      | _ => a) acc

/-- Models `get_previous_quarter` with one deviation the claims examine:
the source takes no parameter and reads `Local::now().date_naive()`
from the ambient clock; here that clock reading is the explicit
argument `today`, and everything after the reading is translated
verbatim. Dates are `(year, month, day)` triples. -/
def getPreviousQuarter (today : Int × Nat × Nat) :
    (Int × Nat × Nat) × (Int × Nat × Nat) × Nat × Int :=
  let currentMonth := today.2.1
  let currentYear := today.1
  let currentQuarter := (currentMonth - 1) / 3 + 1
  let pq := if currentQuarter = 1 then ((4 : Nat), currentYear - 1)
            else (currentQuarter - 1, currentYear)
  let prevQuarter := pq.1
  let prevYear := pq.2
  let startMonth := (prevQuarter - 1) * 3 + 1
  let endMonth := prevQuarter * 3
  let startDate := (prevYear, startMonth, (1 : Nat))
  let endDay := if endMonth = 12 then prevDay (prevYear + 1, 1, 1)
                else prevDay (prevYear, endMonth + 1, 1)
  (startDate, endDay, prevQuarter, prevYear)

/-- A customer address whose state is the lowercase code of Scenario 1. -/
def addrTx : Address := ⟨none, none, none, none, none, some "tx"⟩

/-- The linked customer of Scenario 1, resolving to state "tx". -/
def custTx : Customer := ⟨"cus_1", some "Acme", some addrTx⟩

/-- The invoice of Scenario 1: two subscription lines
(quantity 3, amount 20000) and (quantity 2, amount 10000), tax 4000,
paid at Unix time 1760486400 = 2025-10-15 00:00:00 UTC. -/
def invScenario1 : StripeInvoice :=
  { id := "in_1", customer := .str "cus_1", customer_name := some "Acme",
    customer_address := none, status := "paid", created := 1760486400,
    paid_at := some 1760486400, amount_due := 30000, amount_paid := 34000,
    tax := some 4000,
    lines := ⟨[⟨"li_1", "subscription", 20000, some 3⟩,
               ⟨"li_2", "subscription", 10000, some 2⟩]⟩,
    charge := none }

/-- The canonical record Scenario 1 expects. -/
def recScenario1 : InvoiceRecord :=
  ⟨"10/15/2025", "Acme", 5, "TX", 30000, 4000, 34000, 0⟩

/-- An invoice whose own address carries the five-letter state "texas"
and whose tax field is negative; extraction accepts both. -/
def invStateTexas : StripeInvoice :=
  { id := "in_2", customer := .str "cus_2", customer_name := some "Bee",
    customer_address := some ⟨none, none, none, none, none, some "texas"⟩,
    status := "paid", created := 1760486400, paid_at := some 1760486400,
    amount_due := 0, amount_paid := 0, tax := some (-5), lines := ⟨[]⟩,
    charge := none }

/-- The record extraction produces for `invStateTexas`. -/
def recStateTexas : InvoiceRecord :=
  ⟨"10/15/2025", "Bee", 0, "TEXAS", 0, -5, -5, 0⟩

/-- An invoice with a single subscription line of quantity -1. -/
def invNegQty : StripeInvoice :=
  { id := "in_3", customer := .str "cus_3", customer_name := some "Neg",
    customer_address := some addrTx, status := "paid", created := 1760486400,
    paid_at := some 1760486400, amount_due := 0, amount_paid := 0, tax := none,
    lines := ⟨[⟨"li_n", "subscription", 0, some (-1)⟩]⟩, charge := none }

/-- The record extraction produces for `invNegQty`: the -1 quantity
reappears as 2 ^ 32 - 1 users. -/
def recNegQty : InvoiceRecord :=
  ⟨"10/15/2025", "Neg", 4294967295, "TX", 0, 0, 0, 0⟩

/-- An invoice with no customer name and a non-string, non-object
customer reference: customer-name extraction fails. -/
def invNoIdentity : StripeInvoice :=
  { id := "in_4", customer := .other, customer_name := none,
    customer_address := some addrTx, status := "paid", created := 0,
    paid_at := none, amount_due := 0, amount_paid := 0, tax := none,
    lines := ⟨[]⟩, charge := none }

/-- An invoice with no customer name whose customer reference is the
empty bare string. -/
def invEmptyRef : StripeInvoice :=
  { id := "in_5", customer := .str "", customer_name := none,
    customer_address := some addrTx, status := "paid", created := 0,
    paid_at := none, amount_due := 0, amount_paid := 0, tax := none,
    lines := ⟨[]⟩, charge := none }

/-- Sort-order evidence: a December record. -/
def recDec31 : InvoiceRecord := ⟨"12/31/2025", "Acme", 1, "TX", 100, 0, 100, 0⟩

/-- Sort-order evidence: a record one calendar day later than
`recDec31`, whose rendered date string is lexicographically smaller. -/
def recJan01 : InvoiceRecord := ⟨"01/01/2026", "Acme", 1, "TX", 100, 0, 100, 0⟩

/-- Two distinct records agreeing on state, date and customer. -/
def recTieA : InvoiceRecord := ⟨"10/15/2025", "Acme", 1, "TX", 100, 0, 100, 0⟩

/-- See `recTieA`; differs only in users and amounts. -/
def recTieB : InvoiceRecord := ⟨"10/15/2025", "Acme", 2, "TX", 200, 0, 200, 0⟩

theorem lexLtB_irrefl : ∀ l : List Char, lexLtB l l = false
  | [] => rfl
  | a :: as => by simp [lexLtB, lexLtB_irrefl as]

theorem lexLtB_asymm : ∀ {a b : List Char}, lexLtB a b = true → lexLtB b a = false
  | [], [], h => by simp [lexLtB] at h
  | [], _ :: _, _ => rfl
  | _ :: _, [], h => by simp [lexLtB] at h
  | a :: as, b :: bs, h => by
    simp only [lexLtB] at h ⊢
    rcases lt_trichotomy a b with hc | hc | hc
    · rw [if_neg (asymm hc), if_pos hc]
    · subst hc
      simp only [if_neg (lt_irrefl a)] at h ⊢
      exact lexLtB_asymm h
    · rw [if_neg (asymm hc), if_pos hc] at h
      exact absurd h (by simp)

theorem lexLtB_trans : ∀ {a b c : List Char}, lexLtB a b = true → lexLtB b c = true →
    lexLtB a c = true
  | [], b, [], _, h2 => by cases b <;> simp [lexLtB] at h2
  | [], [], _ :: _, h1, _ => by simp [lexLtB] at h1
  | [], _ :: _, _ :: _, _, _ => rfl
  | _ :: _, [], _, h1, _ => by simp [lexLtB] at h1
  | _ :: _, _ :: _, [], _, h2 => by simp [lexLtB] at h2
  | a :: as, b :: bs, c :: cs, h1, h2 => by
    simp only [lexLtB] at h1 h2 ⊢
    rcases lt_trichotomy a b with hab | hab | hab
    · rcases lt_trichotomy b c with hbc | hbc | hbc
      · rw [if_pos (lt_trans hab hbc)]
      · subst hbc; rw [if_pos hab]
      · rw [if_neg (asymm hbc), if_pos hbc] at h2; exact absurd h2 (by simp)
    · subst hab
      rcases lt_trichotomy a c with hbc | hbc | hbc
      · rw [if_pos hbc]
      · subst hbc
        simp only [if_neg (lt_irrefl a)] at h1 h2 ⊢
        exact lexLtB_trans h1 h2
      · rw [if_neg (asymm hbc), if_pos hbc] at h2; exact absurd h2 (by simp)
    · rw [if_neg (asymm hab), if_pos hab] at h1; exact absurd h1 (by simp)

theorem lexLtB_eq_of_not : ∀ {a b : List Char}, lexLtB a b = false → lexLtB b a = false →
    a = b
  | [], [], _, _ => rfl
  | [], _ :: _, h1, _ => by simp [lexLtB] at h1
  | _ :: _, [], _, h2 => by simp [lexLtB] at h2
  | a :: as, b :: bs, h1, h2 => by
    simp only [lexLtB] at h1 h2
    rcases lt_trichotomy a b with hc | hc | hc
    · rw [if_pos hc] at h1; exact absurd h1 (by simp)
    · subst hc
      simp only [if_neg (lt_irrefl a)] at h1 h2
      rw [lexLtB_eq_of_not h1 h2]
    · rw [if_neg (asymm hc), if_pos hc] at h2; exact absurd h2 (by simp)

theorem strLtB_irrefl (s : String) : strLtB s s = false := lexLtB_irrefl s.data

theorem strLtB_asymm {a b : String} (h : strLtB a b = true) : strLtB b a = false :=
  lexLtB_asymm h

theorem strLtB_trans {a b c : String} (h1 : strLtB a b = true) (h2 : strLtB b c = true) :
    strLtB a c = true :=
  lexLtB_trans h1 h2

theorem strLtB_eq_of_not {a b : String} (h1 : strLtB a b = false)
    (h2 : strLtB b a = false) : a = b := by
  cases a; cases b
  exact congrArg String.mk (lexLtB_eq_of_not h1 h2)

theorem strLtB_ne {a b : String} (h : strLtB a b = true) : a ≠ b := by
  intro he; subst he; rw [strLtB_irrefl] at h; exact absurd h (by simp)

theorem cmpStr_eq_iff {a b : String} : cmpStr a b = .eq ↔ a = b := by
  unfold cmpStr
  by_cases h1 : strLtB a b = true
  · rw [if_pos h1]
    exact iff_of_false (by simp) (strLtB_ne h1)
  · rw [if_neg h1]
    by_cases h2 : a = b
    · rw [if_pos h2]; exact iff_of_true rfl h2
    · rw [if_neg h2]; exact iff_of_false (by simp) h2

theorem cmpStr_lt_iff {a b : String} : cmpStr a b = .lt ↔ strLtB a b = true := by
  unfold cmpStr
  by_cases h1 : strLtB a b = true
  · rw [if_pos h1]; exact iff_of_true rfl h1
  · rw [if_neg h1]
    by_cases h2 : a = b
    · rw [if_pos h2]; exact iff_of_false (by simp) h1
    · rw [if_neg h2]; exact iff_of_false (by simp) h1

theorem cmpStr_gt_iff {a b : String} : cmpStr a b = .gt ↔ strLtB b a = true := by
  unfold cmpStr
  by_cases h1 : strLtB a b = true
  · rw [if_pos h1]
    refine iff_of_false (by simp) ?_
    rw [strLtB_asymm h1]; simp
  · rw [if_neg h1]
    by_cases h2 : a = b
    · rw [if_pos h2]
      refine iff_of_false (by simp) ?_
      subst h2; rw [strLtB_irrefl]; simp
    · rw [if_neg h2]
      refine iff_of_true rfl ?_
      cases hba : strLtB b a
      · exact absurd (strLtB_eq_of_not (by simpa using h1) hba) h2
      · rfl

theorem recordLe_iff {a b : InvoiceRecord} : recordLe a b ↔
    (strLtB a.state b.state = true ∨ (a.state = b.state ∧
      (strLtB a.date b.date = true ∨ (a.date = b.date ∧
        (strLtB a.customer b.customer = true ∨ a.customer = b.customer))))) := by
  unfold recordLe cmpRecord
  cases hs : cmpStr a.state b.state with
  | lt => exact iff_of_true (by simp) (Or.inl (cmpStr_lt_iff.mp hs))
  | gt =>
    refine iff_of_false (by simp) ?_
    rintro (h | ⟨he, _⟩)
    · rw [cmpStr_lt_iff.mpr h] at hs; cases hs
    · rw [cmpStr_eq_iff.mpr he] at hs; cases hs
  | eq =>
    have hse : a.state = b.state := cmpStr_eq_iff.mp hs
    cases hd : cmpStr a.date b.date with
    | lt => exact iff_of_true (by simp) (Or.inr ⟨hse, Or.inl (cmpStr_lt_iff.mp hd)⟩)
    | gt =>
      refine iff_of_false (by simp) ?_
      rintro (h | ⟨_, h | ⟨he, _⟩⟩)
      · exact absurd h (by rw [hse, strLtB_irrefl]; simp)
      · rw [cmpStr_lt_iff.mpr h] at hd; cases hd
      · rw [cmpStr_eq_iff.mpr he] at hd; cases hd
    | eq =>
      have hde : a.date = b.date := cmpStr_eq_iff.mp hd
      cases hc : cmpStr a.customer b.customer with
      | lt =>
        exact iff_of_true (by simp)
          (Or.inr ⟨hse, Or.inr ⟨hde, Or.inl (cmpStr_lt_iff.mp hc)⟩⟩)
      | eq =>
        exact iff_of_true (by simp)
          (Or.inr ⟨hse, Or.inr ⟨hde, Or.inr (cmpStr_eq_iff.mp hc)⟩⟩)
      | gt =>
        refine iff_of_false (by simp) ?_
        rintro (h | ⟨_, h | ⟨_, h | he⟩⟩)
        · exact absurd h (by rw [hse, strLtB_irrefl]; simp)
        · exact absurd h (by rw [hde, strLtB_irrefl]; simp)
        · rw [cmpStr_lt_iff.mpr h] at hc; cases hc
        · rw [cmpStr_eq_iff.mpr he] at hc; cases hc

instance : IsTotal InvoiceRecord recordLe := by
  constructor
  intro a b
  rw [recordLe_iff, recordLe_iff]
  by_cases h1 : strLtB a.state b.state = true
  · exact Or.inl (Or.inl h1)
  by_cases h2 : strLtB b.state a.state = true
  · exact Or.inr (Or.inl h2)
  have hse : a.state = b.state := strLtB_eq_of_not (by simpa using h1) (by simpa using h2)
  by_cases h3 : strLtB a.date b.date = true
  · exact Or.inl (Or.inr ⟨hse, Or.inl h3⟩)
  by_cases h4 : strLtB b.date a.date = true
  · exact Or.inr (Or.inr ⟨hse.symm, Or.inl h4⟩)
  have hde : a.date = b.date := strLtB_eq_of_not (by simpa using h3) (by simpa using h4)
  by_cases h5 : strLtB a.customer b.customer = true
  · exact Or.inl (Or.inr ⟨hse, Or.inr ⟨hde, Or.inl h5⟩⟩)
  by_cases h6 : strLtB b.customer a.customer = true
  · exact Or.inr (Or.inr ⟨hse.symm, Or.inr ⟨hde.symm, Or.inl h6⟩⟩)
  have hce : a.customer = b.customer :=
    strLtB_eq_of_not (by simpa using h5) (by simpa using h6)
  exact Or.inl (Or.inr ⟨hse, Or.inr ⟨hde, Or.inr hce⟩⟩)

instance : IsTrans InvoiceRecord recordLe := by
  constructor
  intro a b c hab hbc
  rw [recordLe_iff] at hab hbc ⊢
  rcases hab with h1 | ⟨e1, hab⟩
  · rcases hbc with h2 | ⟨e2, _⟩
    · exact Or.inl (strLtB_trans h1 h2)
    · exact Or.inl (by rw [← e2]; exact h1)
  · rcases hbc with h2 | ⟨e2, hbc⟩
    · exact Or.inl (by rw [e1]; exact h2)
    · refine Or.inr ⟨e1.trans e2, ?_⟩
      rcases hab with h3 | ⟨e3, hab⟩
      · rcases hbc with h4 | ⟨e4, _⟩
        · exact Or.inl (strLtB_trans h3 h4)
        · exact Or.inl (by rw [← e4]; exact h3)
      · rcases hbc with h4 | ⟨e4, hbc⟩
        · exact Or.inl (by rw [e3]; exact h4)
        · refine Or.inr ⟨e3.trans e4, ?_⟩
          rcases hab with h5 | e5
          · rcases hbc with h6 | e6
            · exact Or.inl (strLtB_trans h5 h6)
            · exact Or.inl (by rw [← e6]; exact h5)
          · rcases hbc with h6 | e6
            · exact Or.inl (by rw [e5]; exact h6)
            · exact Or.inr (e5.trans e6)

/-- C1 (amended): `sort_records` permutes the collection into a sequence
whose every adjacent pair — indeed every pair — is non-decreasing under
the comparator (state, then the rendered date string compared as text,
then customer); ties beyond that key keep arrival order, so arrival
order can still show through for records sharing all three keys. -/
theorem c1_sort_order_amended (l : List InvoiceRecord) :
    (sortRecords l).Perm l ∧ List.Pairwise recordLe (sortRecords l) ∧
      List.Chain' recordLe (sortRecords l) := by
  refine ⟨List.perm_insertionSort recordLe l, ?_, ?_⟩
  · exact List.sorted_insertionSort recordLe l
  · exact List.Pairwise.chain' (List.sorted_insertionSort recordLe l)

/-- C1 counterexample: the comparator orders the date strings as text,
so the sorted output [recJan01, recDec31] puts the calendar-later date
2026-01-01 (key 20260101) before 2025-12-31 (key 20251231), violating
"date ascending as a calendar date"; and two distinct records that tie
on (state, date, customer) keep their arrival order, so the two arrival
orders of the same two-record multiset sort to different sequences. -/
theorem c1_sort_counterexample :
    sortRecords [recDec31, recJan01] = [recJan01, recDec31] ∧
      calendarKey recDec31.date = some 20251231 ∧
      calendarKey recJan01.date = some 20260101 ∧
      (20251231 : Nat) < 20260101 ∧
      ([recTieA, recTieB] : List InvoiceRecord).Perm [recTieB, recTieA] ∧
      sortRecords [recTieA, recTieB] = [recTieA, recTieB] ∧
      sortRecords [recTieB, recTieA] = [recTieB, recTieA] ∧
      [recTieA, recTieB] ≠ ([recTieB, recTieA] : List InvoiceRecord) := by
  decide

/-- C4: with the clock reading made an explicit argument, the previous
quarter computed for reference date 2026-01-10 is Q4 2025 as the claim
states; but the computation is a function of the ambient clock value (it
takes no reference-date parameter in the source), and run at 2026-05-01
it yields Q1 2026, so the repository's own test expecting Q4 2025
("simulate running in January 2026") fails whenever the real clock is
outside Q1 2026. -/
theorem c4_quarter_clock_dependence :
    getPreviousQuarter (2026, 1, 10) = ((2025, 10, 1), (2025, 12, 31), 4, 2025) ∧
      getPreviousQuarter (2026, 5, 1) = ((2026, 1, 1), (2026, 3, 31), 1, 2026) := by
  decide

/-- C5: Scenario 1 — the invoice with subscription lines (3, 20000) and
(2, 10000), tax 4000, paid 2025-10-15, and a linked customer with state
"tx" extracts to exactly the claimed record. -/
theorem c5_scenario1 :
    extractRecord invScenario1 (some custTx) none none = .ok recScenario1 ∧
      recScenario1 = ⟨"10/15/2025", "Acme", 5, "TX", 30000, 4000, 34000, 0⟩ := by
  decide

/-- C10: a subscription line item with quantity -1 is accepted and its
quantity reappears as the i32 reinterpreted as a u32, giving
2 ^ 32 - 1 = 4294967295 users — not a failure, not zero. -/
theorem c10_negative_quantity_wraps :
    extractRecord invNegQty none none none = .ok recNegQty ∧
      recNegQty.users = ((-1 : Int) % 2 ^ 32).toNat ∧
      recNegQty.users = 4294967295 ∧ recNegQty.users ≠ 0 := by
  decide

/-- C8 counterexample: with no denormalized name and the customer
reference being the empty bare string, the claim as stated says the
empty string is returned; the code's match guard rejects it and
extraction fails with the missing-identity error instead. -/
theorem c8_customer_name_counterexample :
    invEmptyRef.customer = .str "" ∧ invEmptyRef.customer_name = none ∧
      extractCustomerName invEmptyRef = .error .missingCustomerIdentity ∧
      extractCustomerName invEmptyRef ≠ .ok "" := by
  decide

/-- C2 counterexample: an invoice whose only state source is the
five-letter string "texas" and whose tax is -5 extracts successfully to
a record with state "TEXAS" (not two letters) and negative tax and
total, so the two-letter and non-negativity parts of the claim fail. -/
theorem c2_invariants_counterexample :
    extractRecord invStateTexas none none none = .ok recStateTexas ∧
      recStateTexas.state.length ≠ 2 ∧ recStateTexas.tax < 0 ∧
      recStateTexas.total < 0 := by
  decide


theorem stateFromInvoice_eq (invoice : StripeInvoice) :
    stateFromInvoice invoice =
      match normalizeSource (invoice.customer_address.bind (fun a => a.state)) with
      | some s => .ok (toUppercase s)
      | none => .error .missingBillingState := by
  unfold stateFromInvoice
  rcases ha : invoice.customer_address with _ | a
  · rfl
  · rcases hs : a.state with _ | s
    · simp [normalizeSource, hs, Option.bind]
    · by_cases he : s = "" <;> simp [normalizeSource, hs, he, Option.bind]

theorem stateFromCharge_eq (charge : Option Charge) (invoice : StripeInvoice) :
    stateFromCharge charge invoice =
      match normalizeSource (((charge.bind (fun c => c.billing_details)).bind
          (fun b => b.address)).bind (fun a => a.state)) with
      | some s => .ok (toUppercase s)
      | none => stateFromInvoice invoice := by
  unfold stateFromCharge
  rcases charge with _ | chg
  · rfl
  · rcases hb : chg.billing_details with _ | bd
    · simp [normalizeSource, hb, Option.bind]
    · rcases hd : bd.address with _ | address
      · simp [normalizeSource, hb, hd, Option.bind]
      · rcases hs : address.state with _ | s
        · simp [normalizeSource, hb, hd, hs, Option.bind]
        · by_cases he : s = "" <;>
            simp [normalizeSource, hb, hd, hs, he, Option.bind]

theorem extractStateWithFallbacks_eq (customer : Option Customer)
    (charge : Option Charge) (invoice : StripeInvoice) :
    extractStateWithFallbacks customer charge invoice =
      match normalizeSource ((customer.bind (fun c => c.address)).bind
          (fun a => a.state)) with
      | some s => .ok (toUppercase s)
      | none => stateFromCharge charge invoice := by
  unfold extractStateWithFallbacks
  rcases customer with _ | cust
  · rfl
  · rcases ha : cust.address with _ | address
    · simp [normalizeSource, ha, Option.bind]
    · rcases hs : address.state with _ | s
      · simp [normalizeSource, ha, hs, Option.bind]
      · by_cases he : s = "" <;> simp [normalizeSource, ha, hs, he, Option.bind]

/-- C3: state extraction returns the first non-empty source in the
strict priority order (customer address, charge billing address, invoice
address), uppercased — a present higher-priority source wins even when a
lower-priority one is present — and it fails with the missing-state
error exactly when every source is absent or empty. -/
theorem c3_state_fallback_priority (customer : Option Customer) (charge : Option Charge)
    (invoice : StripeInvoice) :
    (extractStateWithFallbacks customer charge invoice =
      match firstNonEmpty (stateSources customer charge invoice) with
      | some s => .ok (toUppercase s)
      | none => .error .missingBillingState) ∧
    (extractStateWithFallbacks customer charge invoice = .error .missingBillingState ↔
      firstNonEmpty (stateSources customer charge invoice) = none) := by
  have hmain : extractStateWithFallbacks customer charge invoice =
      match firstNonEmpty (stateSources customer charge invoice) with
      | some s => .ok (toUppercase s)
      | none => .error .missingBillingState := by
    rw [extractStateWithFallbacks_eq, stateFromCharge_eq, stateFromInvoice_eq]
    unfold firstNonEmpty stateSources
    cases h1 : normalizeSource ((customer.bind (fun c => c.address)).bind
        (fun a => a.state)) with
    | some s => simp [List.findSome?, h1]
    | none =>
      cases h2 : normalizeSource (((charge.bind (fun c => c.billing_details)).bind
          (fun b => b.address)).bind (fun a => a.state)) with
      | some s => simp [List.findSome?, h1, h2]
      | none =>
        cases h3 : normalizeSource (invoice.customer_address.bind (fun a => a.state)) with
        | some s => simp [List.findSome?, h1, h2, h3]
        | none => simp [List.findSome?, h1, h2, h3]
  refine ⟨hmain, ?_⟩
  rw [hmain]
  cases firstNonEmpty (stateSources customer charge invoice) with
  | none => simp
  | some s => simp

/-- C8 (amended): customer-name extraction follows the priority list
(non-empty denormalized name, non-empty bare reference string, embedded
object's string id, embedded object's string name) and fails with the
missing-identity error exactly when every source yields nothing — an
empty bare reference string counts as absent (the source's match guard
rejects it), while an empty embedded name is still returned. -/
theorem c8_customer_name_amended (invoice : StripeInvoice) :
    (extractCustomerName invoice =
      match (customerNameSources invoice).findSome? id with
      | some n => .ok n
      | none => .error .missingCustomerIdentity) ∧
    (extractCustomerName invoice = .error .missingCustomerIdentity ↔
      (customerNameSources invoice).findSome? id = none) := by
  have hmain : extractCustomerName invoice =
      match (customerNameSources invoice).findSome? id with
      | some n => .ok n
      | none => .error .missingCustomerIdentity := by
    unfold extractCustomerName customerNameFromValue customerNameSources
    cases hn : invoice.customer_name with
    | some name =>
      by_cases he : name = ""
      · subst he
        cases hc : invoice.customer with
        | str s =>
          by_cases hs : s = "" <;> simp [normalizeSource, List.findSome?, hn, hc, hs]
        | obj idField nameField =>
          cases idField with
          | some i => simp [normalizeSource, List.findSome?, hn, hc]
          | none =>
            cases nameField with
            | some n => simp [normalizeSource, List.findSome?, hn, hc]
            | none => simp [normalizeSource, List.findSome?, hn, hc]
        | other => simp [normalizeSource, List.findSome?, hn, hc]
      · simp [normalizeSource, List.findSome?, hn, he]
    | none =>
      cases hc : invoice.customer with
      | str s =>
        by_cases hs : s = "" <;> simp [normalizeSource, List.findSome?, hn, hc, hs]
      | obj idField nameField =>
        cases idField with
        | some i => simp [normalizeSource, List.findSome?, hn, hc]
        | none =>
          cases nameField with
          | some n => simp [normalizeSource, List.findSome?, hn, hc]
          | none => simp [normalizeSource, List.findSome?, hn, hc]
      | other => simp [normalizeSource, List.findSome?, hn, hc]
  refine ⟨hmain, ?_⟩
  rw [hmain]
  cases (customerNameSources invoice).findSome? id with
  | none => simp
  | some n => simp

theorem charOfNat_toNat (n : Nat) (h : n < 55296) : (Char.ofNat n).toNat = n := by
  have hv : n.isValidChar := Or.inl h
  simp [Char.ofNat, hv, Char.ofNatAux, Char.toNat, UInt32.toNat, BitVec.toNat_ofNatLt]

theorem charToUpper_idem (c : Char) : c.toUpper.toUpper = c.toUpper := by
  simp only [Char.toUpper]
  by_cases h : c.toNat ≥ 97 ∧ c.toNat ≤ 122
  · rw [if_pos h]
    have h1 : (Char.ofNat (c.toNat - 32)).toNat = c.toNat - 32 :=
      charOfNat_toNat _ (by omega)
    rw [if_neg (by rw [h1]; omega)]
  · rw [if_neg h, if_neg h]

theorem toUppercase_idem (s : String) : toUppercase (toUppercase s) = toUppercase s := by
  cases s with
  | mk l =>
    simp only [toUppercase, List.map_map]
    have hcomp : Char.toUpper ∘ Char.toUpper = Char.toUpper := funext charToUpper_idem
    rw [hcomp]

theorem toUppercase_ne_empty {s : String} (h : s ≠ "") : toUppercase s ≠ "" := by
  cases s with
  | mk l =>
    cases l with
    | nil => exact absurd rfl h
    | cons c cs =>
      intro hh
      have hd := congrArg String.data hh
      simp [toUppercase] at hd

theorem normalizeSource_some {o : Option String} {s : String}
    (h : normalizeSource o = some s) : s ≠ "" := by
  cases o with
  | none => exact absurd h (by simp [normalizeSource])
  | some t =>
    by_cases ht : t = ""
    · rw [normalizeSource, if_pos ht] at h
      exact absurd h (by simp)
    · rw [normalizeSource, if_neg ht] at h
      injection h with h
      exact h ▸ ht

theorem extractState_ok_shape {customer : Option Customer} {charge : Option Charge}
    {invoice : StripeInvoice} {s : String}
    (h : extractStateWithFallbacks customer charge invoice = .ok s) :
    s ≠ "" ∧ toUppercase s = s := by
  have hshape : ∃ s0, s0 ≠ "" ∧ s = toUppercase s0 := by
    rw [extractStateWithFallbacks_eq, stateFromCharge_eq, stateFromInvoice_eq] at h
    cases h1 : normalizeSource ((customer.bind (fun c => c.address)).bind
        (fun a => a.state)) with
    | some t =>
      rw [h1] at h
      injection h with h
      exact ⟨t, normalizeSource_some h1, h.symm⟩
    | none =>
      rw [h1] at h
      cases h2 : normalizeSource (((charge.bind (fun c => c.billing_details)).bind
          (fun b => b.address)).bind (fun a => a.state)) with
      | some t =>
        rw [h2] at h
        injection h with h
        exact ⟨t, normalizeSource_some h2, h.symm⟩
      | none =>
        rw [h2] at h
        cases h3 : normalizeSource (invoice.customer_address.bind (fun a => a.state)) with
        | some t =>
          rw [h3] at h
          injection h with h
          exact ⟨t, normalizeSource_some h3, h.symm⟩
        | none => rw [h3] at h; cases h
  obtain ⟨s0, hs0, hup⟩ := hshape
  subst hup
  exact ⟨toUppercase_ne_empty hs0, toUppercase_idem s0⟩

/-- C2 (amended): every record produced by a successful extraction has
`total = licenses + tax` and a non-empty state fixed under uppercasing;
the two-letter shape and the non-negativity of the monetary fields are
not enforced by the code (see the counterexample). -/
theorem c2_invariants_amended (invoice : StripeInvoice) (customer : Option Customer)
    (charge : Option Charge) (bt : Option BalanceTransaction) (r : InvoiceRecord)
    (h : extractRecord invoice customer charge bt = .ok r) :
    r.total = r.licenses + r.tax ∧ r.state ≠ "" ∧ toUppercase r.state = r.state := by
  unfold extractRecord at h
  cases hd : formatInvoiceDate (invoice.paid_at.getD invoice.created) with
  | error e => rw [hd] at h; cases h
  | ok date =>
    rw [hd] at h
    cases hn : extractCustomerName invoice with
    | error e => rw [hn] at h; cases h
    | ok nm =>
      rw [hn] at h
      cases hs : extractStateWithFallbacks customer charge invoice with
      | error e => rw [hs] at h; cases h
      | ok st =>
        rw [hs] at h
        simp only [Except.ok.injEq] at h
        obtain ⟨h1, h2⟩ := extractState_ok_shape hs
        subst h
        exact ⟨rfl, h1, h2⟩

/-- C2 witness: the amended invariant holds at the Scenario 1 input. -/
theorem c2_invariants_witness :
    (extractRecord invScenario1 (some custTx) none none = .ok recScenario1) ∧
      (recScenario1.total = recScenario1.licenses + recScenario1.tax ∧
        recScenario1.state ≠ "" ∧ toUppercase recScenario1.state = recScenario1.state) :=
  ⟨by decide,
   c2_invariants_amended invScenario1 (some custTx) none none recScenario1 (by decide)⟩

/-- C9: when extraction of an invoice fails, the generator's record
collection is returned exactly unchanged — the failed invoice never
enters it and no partially built record is added. -/
theorem c9_failure_leaves_records (records : List InvoiceRecord)
    (invoice : StripeInvoice) (customer : Option Customer) (charge : Option Charge)
    (bt : Option BalanceTransaction) (e : ExtractError)
    (h : (processInvoiceWithCustomer records invoice customer charge bt).1 = .error e) :
    (processInvoiceWithCustomer records invoice customer charge bt).2 = records := by
  unfold processInvoiceWithCustomer at h ⊢
  cases hx : extractRecord invoice customer charge bt with
  | error e2 => rfl
  | ok r => rw [hx] at h; simp at h

/-- C9 witness: a missing-identity failure on a one-record collection
leaves that collection unchanged. -/
theorem c9_failure_leaves_records_witness :
    ((processInvoiceWithCustomer [recScenario1] invNoIdentity none none none).1 =
      .error .missingCustomerIdentity) ∧
      (processInvoiceWithCustomer [recScenario1] invNoIdentity none none none).2 =
        [recScenario1] :=
  ⟨by decide,
   c9_failure_leaves_records [recScenario1] invNoIdentity none none none
     .missingCustomerIdentity (by decide)⟩

theorem foldl_totalsStep (rs : List InvoiceRecord) :
    ∀ t, rs.foldl totalsStep t = tupleAdd t (calculateTotals rs) := by
  induction rs with
  | nil => intro t; simp [calculateTotals, tupleAdd]
  | cons r rs ih =>
    intro t
    have h1 : (r :: rs).foldl totalsStep t = rs.foldl totalsStep (totalsStep t r) := rfl
    have h2 : calculateTotals (r :: rs) =
        rs.foldl totalsStep (totalsStep (0, 0, 0, 0) r) := rfl
    rw [h1, h2, ih, ih]
    simp only [tupleAdd, totalsStep, Prod.mk.injEq]
    omega

theorem calculateTotals_append (xs ys : List InvoiceRecord) :
    calculateTotals (xs ++ ys) = tupleAdd (calculateTotals xs) (calculateTotals ys) := by
  unfold calculateTotals
  rw [List.foldl_append]
  exact foldl_totalsStep ys _

theorem calculateTotals_perm {xs ys : List InvoiceRecord} (h : xs.Perm ys) :
    calculateTotals xs = calculateTotals ys := by
  induction h with
  | nil => rfl
  | cons x _ ih =>
    have hx : ∀ l : List InvoiceRecord, calculateTotals (x :: l) =
        tupleAdd (totalsStep (0, 0, 0, 0) x) (calculateTotals l) := by
      intro l
      have : calculateTotals (x :: l) = l.foldl totalsStep (totalsStep (0, 0, 0, 0) x) :=
        rfl
      rw [this, foldl_totalsStep]
    rw [hx, hx, ih]
  | swap x y l =>
    have hs : ∀ (a b : InvoiceRecord) (l : List InvoiceRecord),
        calculateTotals (a :: b :: l) =
          l.foldl totalsStep (totalsStep (totalsStep (0, 0, 0, 0) a) b) := fun _ _ _ => rfl
    rw [hs, hs]
    have : totalsStep (totalsStep (0, 0, 0, 0) y) x =
        totalsStep (totalsStep (0, 0, 0, 0) x) y := by
      simp only [totalsStep, Prod.mk.injEq]
      omega
    rw [this]
  | trans _ _ ih1 ih2 => exact ih1.trans ih2

theorem mem_insertKey {a s : String} : ∀ {ks : List String},
    a ∈ insertKey s ks ↔ a = s ∨ a ∈ ks := by
  intro ks
  induction ks with
  | nil => simp [insertKey]
  | cons k ks ih =>
    unfold insertKey
    split_ifs with h1 h2
    · subst h1
      exact ⟨fun h => Or.inr h, fun h => h.elim (fun he => he ▸ List.mem_cons_self _ _) id⟩
    · simp only [List.mem_cons]
    · simp only [List.mem_cons, ih]
      tauto

theorem sorted_insertKey {s : String} : ∀ {ks : List String},
    ks.Pairwise (fun x y => strLtB x y = true) →
    (insertKey s ks).Pairwise (fun x y => strLtB x y = true) := by
  intro ks
  induction ks with
  | nil => intro _; simp [insertKey]
  | cons k ks ih =>
    intro hp
    obtain ⟨hk, hks⟩ := List.pairwise_cons.mp hp
    unfold insertKey
    by_cases h1 : s = k
    · rw [if_pos h1]; exact hp
    · rw [if_neg h1]
      by_cases h2 : strLtB s k = true
      · rw [if_pos h2]
        refine List.pairwise_cons.mpr ⟨?_, hp⟩
        intro b hb
        rcases List.mem_cons.mp hb with hb | hb
        · subst hb; exact h2
        · exact strLtB_trans h2 (hk b hb)
      · rw [if_neg h2]
        have hks2 : strLtB k s = true := by
          cases hco : strLtB k s
          · exact absurd (strLtB_eq_of_not hco (by simpa using h2)) (Ne.symm h1)
          · rfl
        refine List.pairwise_cons.mpr ⟨?_, ih hks⟩
        intro b hb
        rcases mem_insertKey.mp hb with hb | hb
        · subst hb; exact hks2
        · exact hk b hb

theorem foldl_insertKey_pairwise : ∀ (rs : List InvoiceRecord) (acc : List String),
    acc.Pairwise (fun x y => strLtB x y = true) →
    (rs.foldl (fun ks r => insertKey r.state ks) acc).Pairwise
      (fun x y => strLtB x y = true)
  | [], _, h => h
  | _ :: rs, _, h => foldl_insertKey_pairwise rs _ (sorted_insertKey h)

theorem stateKeys_pairwise (rs : List InvoiceRecord) :
    (stateKeys rs).Pairwise (fun x y => strLtB x y = true) :=
  foldl_insertKey_pairwise rs [] (List.Pairwise.nil)

theorem stateKeys_nodup (rs : List InvoiceRecord) : (stateKeys rs).Nodup :=
  (stateKeys_pairwise rs).imp (fun h => strLtB_ne h)

theorem mem_foldl_insertKey : ∀ (rs : List InvoiceRecord) (acc : List String) (a : String),
    a ∈ rs.foldl (fun ks r => insertKey r.state ks) acc ↔
      a ∈ acc ∨ ∃ r ∈ rs, r.state = a
  | [], acc, a => by simp
  | r :: rs, acc, a => by
    simp only [List.foldl_cons]
    rw [mem_foldl_insertKey rs _ a]
    constructor
    · rintro (h | h)
      · rcases mem_insertKey.mp h with h | h
        · exact Or.inr ⟨r, List.mem_cons_self r rs, h.symm⟩
        · exact Or.inl h
      · obtain ⟨x, hx, hxa⟩ := h
        exact Or.inr ⟨x, List.mem_cons_of_mem r hx, hxa⟩
    · rintro (h | ⟨x, hx, hxa⟩)
      · exact Or.inl (mem_insertKey.mpr (Or.inr h))
      · rcases List.mem_cons.mp hx with hx | hx
        · subst hx; exact Or.inl (mem_insertKey.mpr (Or.inl hxa.symm))
        · exact Or.inr ⟨x, hx, hxa⟩

theorem stateKeys_mem {rs : List InvoiceRecord} {a : String} :
    a ∈ stateKeys rs ↔ ∃ r ∈ rs, r.state = a := by
  unfold stateKeys
  rw [mem_foldl_insertKey]
  simp

theorem flatMap_congr_left {α β : Type} {f g : α → List β} :
    ∀ {l : List α}, (∀ a ∈ l, f a = g a) → l.flatMap f = l.flatMap g := by
  intro l
  induction l with
  | nil => intro _; rfl
  | cons x l ih =>
    intro h
    rw [List.flatMap_cons, List.flatMap_cons, h x (List.mem_cons_self x l),
      ih (fun a ha => h a (List.mem_cons_of_mem x ha))]

theorem flatMap_group_perm : ∀ (keys : List String) (rs : List InvoiceRecord),
    keys.Nodup → (∀ r ∈ rs, r.state ∈ keys) →
    (keys.flatMap (fun s => stateGroup rs s)).Perm rs := by
  intro keys
  induction keys with
  | nil =>
    intro rs _ hcov
    cases rs with
    | nil => simp
    | cons r rs => exact absurd (hcov r (List.mem_cons_self r rs)) (by simp)
  | cons k ks ih =>
    intro rs hnd hcov
    obtain ⟨hk, hksnd⟩ := List.nodup_cons.mp hnd
    have hsplit : (stateGroup rs k ++
        rs.filter (fun r => !(decide (r.state = k)))).Perm rs := by
      unfold stateGroup
      exact List.filter_append_perm (fun r => decide (r.state = k)) rs
    have hgroups : ∀ s ∈ ks,
        stateGroup rs s = stateGroup (rs.filter (fun r => !(decide (r.state = k)))) s := by
      intro s hs
      have hsk : s ≠ k := fun he => hk (he ▸ hs)
      unfold stateGroup
      rw [List.filter_filter]
      apply List.filter_congr
      intro r _
      by_cases hr : r.state = s
      · simp [hr]
        exact hsk
      · simp [hr]
    have hcov2 : ∀ r ∈ rs.filter (fun r => !(decide (r.state = k))), r.state ∈ ks := by
      intro r hr
      obtain ⟨hr1, hr2⟩ := List.mem_filter.mp hr
      have hne : r.state ≠ k := by simpa using hr2
      rcases List.mem_cons.mp (hcov r hr1) with h | h
      · exact absurd h hne
      · exact h
    have ihp := ih (rs.filter (fun r => !(decide (r.state = k)))) hksnd hcov2
    have hmap : ks.flatMap (fun s => stateGroup rs s) =
        ks.flatMap (fun s => stateGroup (rs.filter (fun r => !(decide (r.state = k)))) s) :=
      flatMap_congr_left hgroups
    rw [List.flatMap_cons, hmap]
    exact (ihp.append_left (stateGroup rs k)).trans hsplit

theorem foldl_grand (rs : List InvoiceRecord) : ∀ (keys : List String)
    (g : Int × Int × Int × Int),
    keys.foldl (fun g s => tupleAdd g (calculateTotals (stateGroup rs s))) g =
      tupleAdd g (calculateTotals (keys.flatMap (fun s => stateGroup rs s))) := by
  intro keys
  induction keys with
  | nil =>
    intro g
    simp [calculateTotals, tupleAdd]
  | cons k ks ih =>
    intro g
    rw [List.foldl_cons, ih, List.flatMap_cons, calculateTotals_append]
    simp only [tupleAdd, Prod.mk.injEq]
    omega

theorem grandTotals_eq_calc (rs : List InvoiceRecord) :
    grandTotals rs = calculateTotals rs := by
  unfold grandTotals
  rw [foldl_grand]
  have hperm := flatMap_group_perm (stateKeys rs) rs (stateKeys_nodup rs)
    (fun r hr => stateKeys_mem.mpr ⟨r, hr, rfl⟩)
  rw [calculateTotals_perm hperm]
  simp [tupleAdd]

theorem countP_grand_dataRows (g : List InvoiceRecord) :
    (g.map TsvLine.dataRow).countP isGrandTotalRow = 0 := by
  induction g with
  | nil => rfl
  | cons r g ih => simp [List.countP_cons, isGrandTotalRow, ih]

theorem countP_grand_stateSection (rs : List InvoiceRecord) (s : String) :
    (stateSection rs s).countP isGrandTotalRow = 0 := by
  simp only [stateSection, List.countP_append, countP_grand_dataRows]
  rfl

theorem countP_grand_flatMap (rs : List InvoiceRecord) : ∀ keys : List String,
    (keys.flatMap (fun s => stateSection rs s)).countP isGrandTotalRow = 0 := by
  intro keys
  induction keys with
  | nil => rfl
  | cons k ks ih =>
    rw [List.flatMap_cons, List.countP_append, countP_grand_stateSection, ih]

/-- C6: the formatted output contains exactly one grand-total row, as
its final line after all state sections; its four values are the sums of
the group subtotals (that is how `grandTotals` accumulates them), which
equal `calculate_totals` over the records; and zero input records
produce only an all-zero grand-total row with no state sections. -/
theorem c6_grand_total (records : List InvoiceRecord) :
    (formatAsTsvLines records).countP isGrandTotalRow = 1 ∧
      (formatAsTsvLines records).getLast? =
        some (.grandTotalRow (grandTotals records).1 (grandTotals records).2.1
          (grandTotals records).2.2.1 (grandTotals records).2.2.2) ∧
      grandTotals records = calculateTotals records ∧
      formatAsTsvLines [] = [.grandTotalRow 0 0 0 0] := by
  refine ⟨?_, ?_, grandTotals_eq_calc records, by decide⟩
  · simp only [formatAsTsvLines, List.countP_append, countP_grand_flatMap]
    rfl
  · simp only [formatAsTsvLines]
    exact List.getLast?_concat _

theorem rowsMatchHeaders_append : ∀ (xs ys : List TsvLine) (cur : Option String),
    rowsMatchHeaders cur (xs ++ ys) =
      (rowsMatchHeaders cur xs && rowsMatchHeaders (lastHeader cur xs) ys) := by
  intro xs
  induction xs with
  | nil =>
    intro ys cur
    simp [rowsMatchHeaders, lastHeader]
  | cons x xs ih =>
    intro ys cur
    cases x with
    | stateHeader s =>
      simp only [List.cons_append, rowsMatchHeaders, lastHeader, List.foldl_cons]
      exact ih ys (some s)
    | columnHeader =>
      simp only [List.cons_append, rowsMatchHeaders, lastHeader, List.foldl_cons]
      exact ih ys cur
    | dataRow r =>
      simp only [List.cons_append, rowsMatchHeaders, lastHeader, List.foldl_cons]
      by_cases h : some r.state = cur
      · rw [if_pos h, if_pos h]
        exact ih ys cur
      · rw [if_neg h, if_neg h]
        simp
    | subtotalRow l t tt f =>
      simp only [List.cons_append, rowsMatchHeaders, lastHeader, List.foldl_cons]
      exact ih ys cur
    | blankRow =>
      simp only [List.cons_append, rowsMatchHeaders, lastHeader, List.foldl_cons]
      exact ih ys cur
    | grandTotalRow l t tt f =>
      simp only [List.cons_append, rowsMatchHeaders, lastHeader, List.foldl_cons]
      exact ih ys cur

theorem rowsMatchHeaders_dataRows : ∀ (g : List InvoiceRecord) (s : String),
    (∀ r ∈ g, r.state = s) → ∀ rest : List TsvLine,
    rowsMatchHeaders (some s) (g.map TsvLine.dataRow ++ rest) =
      rowsMatchHeaders (some s) rest := by
  intro g
  induction g with
  | nil => intro s _ rest; rfl
  | cons r g ih =>
    intro s hall rest
    have hr : r.state = s := hall r (List.mem_cons_self r g)
    simp only [List.map_cons, List.cons_append, rowsMatchHeaders]
    rw [if_pos (by rw [hr])]
    exact ih s (fun x hx => hall x (List.mem_cons_of_mem r hx)) rest

theorem lastHeader_append (cur : Option String) (xs ys : List TsvLine) :
    lastHeader cur (xs ++ ys) = lastHeader (lastHeader cur xs) ys := by
  unfold lastHeader
  rw [List.foldl_append]

theorem lastHeader_dataRows (g : List InvoiceRecord) (c : Option String) :
    lastHeader c (g.map TsvLine.dataRow) = c := by
  induction g with
  | nil => rfl
  | cons r g ih =>
    simp only [List.map_cons, lastHeader, List.foldl_cons]
    exact ih

theorem lastHeader_stateSection (cur : Option String) (rs : List InvoiceRecord)
    (s : String) : lastHeader cur (stateSection rs s) = some s := by
  simp only [stateSection]
  rw [lastHeader_append, lastHeader_append]
  have h1 : lastHeader cur [TsvLine.stateHeader s, TsvLine.columnHeader] = some s := rfl
  rw [h1, lastHeader_dataRows]
  rfl

theorem rowsMatchHeaders_stateSection_true (cur : Option String)
    (rs : List InvoiceRecord) (s : String) :
    rowsMatchHeaders cur (stateSection rs s) = true := by
  have hall : ∀ r ∈ stateGroup rs s, r.state = s := by
    intro r hr
    have := List.of_mem_filter hr
    simpa using this
  simp only [stateSection]
  rw [rowsMatchHeaders_append, rowsMatchHeaders_append]
  have h1 : rowsMatchHeaders cur [TsvLine.stateHeader s, TsvLine.columnHeader] = true := rfl
  have h2 : lastHeader cur [TsvLine.stateHeader s, TsvLine.columnHeader] = some s := rfl
  have h3 := rowsMatchHeaders_dataRows (stateGroup rs s) s hall []
  rw [List.append_nil] at h3
  have h4 : ∀ c : Option String, rowsMatchHeaders c
      [TsvLine.subtotalRow (calculateTotals (stateGroup rs s)).1
        (calculateTotals (stateGroup rs s)).2.1 (calculateTotals (stateGroup rs s)).2.2.1
        (calculateTotals (stateGroup rs s)).2.2.2, TsvLine.blankRow] = true :=
    fun c => rfl
  rw [h1, h2, h3, h4]
  rfl

theorem rowsMatchHeaders_stateSection (cur : Option String) (rs : List InvoiceRecord)
    (s : String) (rest : List TsvLine) :
    rowsMatchHeaders cur (stateSection rs s ++ rest) = rowsMatchHeaders (some s) rest := by
  rw [rowsMatchHeaders_append, rowsMatchHeaders_stateSection_true,
    lastHeader_stateSection]
  simp

theorem rowsMatchHeaders_flatMap (rs : List InvoiceRecord) : ∀ (keys : List String)
    (cur : Option String) (tail : List TsvLine),
    (∀ c, rowsMatchHeaders c tail = true) →
    rowsMatchHeaders cur (keys.flatMap (fun s => stateSection rs s) ++ tail) = true := by
  intro keys
  induction keys with
  | nil =>
    intro cur tail htail
    simpa using htail cur
  | cons k ks ih =>
    intro cur tail htail
    rw [List.flatMap_cons, List.append_assoc, rowsMatchHeaders_stateSection]
    exact ih (some k) tail htail

theorem runningSubtotal_append (acc : Int × Int × Int × Int) (xs ys : List TsvLine) :
    runningSubtotal acc (xs ++ ys) = runningSubtotal (runningSubtotal acc xs) ys := by
  unfold runningSubtotal
  rw [List.foldl_append]

theorem runningSubtotal_dataRows (g : List InvoiceRecord) :
    ∀ acc, runningSubtotal acc (g.map TsvLine.dataRow) = g.foldl totalsStep acc := by
  induction g with
  | nil => intro acc; rfl
  | cons r g ih =>
    intro acc
    simp only [List.map_cons, runningSubtotal, List.foldl_cons] at ih ⊢
    exact ih (totalsStep acc r)

theorem subtotalsMatch_append : ∀ (xs ys : List TsvLine) (acc : Int × Int × Int × Int),
    subtotalsMatch acc (xs ++ ys) =
      (subtotalsMatch acc xs && subtotalsMatch (runningSubtotal acc xs) ys) := by
  intro xs
  induction xs with
  | nil =>
    intro ys acc
    simp [subtotalsMatch, runningSubtotal]
  | cons x xs ih =>
    intro ys acc
    cases x with
    | stateHeader s =>
      simp only [List.cons_append, subtotalsMatch, runningSubtotal, List.foldl_cons]
      exact ih ys (0, 0, 0, 0)
    | columnHeader =>
      simp only [List.cons_append, subtotalsMatch, runningSubtotal, List.foldl_cons]
      exact ih ys acc
    | dataRow r =>
      simp only [List.cons_append, subtotalsMatch, runningSubtotal, List.foldl_cons]
      exact ih ys (totalsStep acc r)
    | subtotalRow l t tt f =>
      simp only [List.cons_append, subtotalsMatch, runningSubtotal, List.foldl_cons]
      by_cases h : acc = (l, t, tt, f)
      · rw [if_pos h, if_pos h]
        exact ih ys acc
      · rw [if_neg h, if_neg h]
        simp
    | blankRow =>
      simp only [List.cons_append, subtotalsMatch, runningSubtotal, List.foldl_cons]
      exact ih ys acc
    | grandTotalRow l t tt f =>
      simp only [List.cons_append, subtotalsMatch, runningSubtotal, List.foldl_cons]
      exact ih ys acc

theorem subtotalsMatch_dataRows : ∀ (g : List InvoiceRecord)
    (acc : Int × Int × Int × Int) (rest : List TsvLine),
    subtotalsMatch acc (g.map TsvLine.dataRow ++ rest) =
      subtotalsMatch (g.foldl totalsStep acc) rest := by
  intro g
  induction g with
  | nil => intro acc rest; rfl
  | cons r g ih =>
    intro acc rest
    simp only [List.map_cons, List.cons_append, subtotalsMatch, List.foldl_cons]
    exact ih (totalsStep acc r) rest

theorem runningSubtotal_stateSection (acc : Int × Int × Int × Int)
    (rs : List InvoiceRecord) (s : String) :
    runningSubtotal acc (stateSection rs s) = calculateTotals (stateGroup rs s) := by
  simp only [stateSection]
  rw [runningSubtotal_append, runningSubtotal_append]
  have h1 : runningSubtotal acc [TsvLine.stateHeader s, TsvLine.columnHeader] =
      (0, 0, 0, 0) := rfl
  rw [h1, runningSubtotal_dataRows]
  rfl

theorem subtotalsMatch_stateSection_true (acc : Int × Int × Int × Int)
    (rs : List InvoiceRecord) (s : String) :
    subtotalsMatch acc (stateSection rs s) = true := by
  simp only [stateSection]
  rw [subtotalsMatch_append, subtotalsMatch_append]
  have h1 : subtotalsMatch acc [TsvLine.stateHeader s, TsvLine.columnHeader] = true := rfl
  have h2 : runningSubtotal acc [TsvLine.stateHeader s, TsvLine.columnHeader] =
      (0, 0, 0, 0) := rfl
  have h3 : subtotalsMatch (0, 0, 0, 0)
      (List.map TsvLine.dataRow (stateGroup rs s)) = true := by
    have h := subtotalsMatch_dataRows (stateGroup rs s) (0, 0, 0, 0) []
    rw [List.append_nil] at h
    rw [h]
    rfl
  have h4 : subtotalsMatch ((stateGroup rs s).foldl totalsStep (0, 0, 0, 0))
      [TsvLine.subtotalRow (calculateTotals (stateGroup rs s)).1
        (calculateTotals (stateGroup rs s)).2.1 (calculateTotals (stateGroup rs s)).2.2.1
        (calculateTotals (stateGroup rs s)).2.2.2, TsvLine.blankRow] = true := by
    have heq : (stateGroup rs s).foldl totalsStep (0, 0, 0, 0) =
        calculateTotals (stateGroup rs s) := rfl
    rw [heq]
    simp [subtotalsMatch]
  rw [h1, h2, h3, runningSubtotal_append, h2, runningSubtotal_dataRows, h4]
  rfl

theorem subtotalsMatch_stateSection (rs : List InvoiceRecord) (s : String)
    (acc : Int × Int × Int × Int) (rest : List TsvLine) :
    subtotalsMatch acc (stateSection rs s ++ rest) =
      subtotalsMatch (calculateTotals (stateGroup rs s)) rest := by
  rw [subtotalsMatch_append, subtotalsMatch_stateSection_true,
    runningSubtotal_stateSection]
  simp

theorem subtotalsMatch_flatMap (rs : List InvoiceRecord) : ∀ (keys : List String)
    (acc : Int × Int × Int × Int) (tail : List TsvLine),
    (∀ a, subtotalsMatch a tail = true) →
    subtotalsMatch acc (keys.flatMap (fun s => stateSection rs s) ++ tail) = true := by
  intro keys
  induction keys with
  | nil =>
    intro acc tail htail
    simpa using htail acc
  | cons k ks ih =>
    intro acc tail htail
    rw [List.flatMap_cons, List.append_assoc, subtotalsMatch_stateSection]
    exact ih _ tail htail

theorem headerStates_append (xs ys : List TsvLine) :
    headerStates (xs ++ ys) = headerStates xs ++ headerStates ys :=
  List.filterMap_append xs ys _

theorem headerStates_dataRows (g : List InvoiceRecord) :
    headerStates (g.map TsvLine.dataRow) = [] := by
  induction g with
  | nil => rfl
  | cons r g ih =>
    simp only [headerStates, List.filterMap_cons] at ih ⊢
    exact ih

theorem headerStates_stateSection (rs : List InvoiceRecord) (s : String) :
    headerStates (stateSection rs s) = [s] := by
  simp only [stateSection]
  rw [headerStates_append, headerStates_append, headerStates_dataRows]
  have h1 : headerStates [TsvLine.stateHeader s, TsvLine.columnHeader] = [s] := rfl
  have h2 : headerStates [TsvLine.subtotalRow (calculateTotals (stateGroup rs s)).1
      (calculateTotals (stateGroup rs s)).2.1 (calculateTotals (stateGroup rs s)).2.2.1
      (calculateTotals (stateGroup rs s)).2.2.2, TsvLine.blankRow] = [] := rfl
  rw [h1, h2]
  simp

theorem headerStates_flatMap (rs : List InvoiceRecord) : ∀ keys : List String,
    headerStates (keys.flatMap (fun s => stateSection rs s)) = keys := by
  intro keys
  induction keys with
  | nil => rfl
  | cons k ks ih =>
    rw [List.flatMap_cons, headerStates_append, headerStates_stateSection, ih]
    rfl

theorem headerStates_format (rs : List InvoiceRecord) :
    headerStates (formatAsTsvLines rs) = stateKeys rs := by
  simp only [formatAsTsvLines]
  rw [headerStates_append, headerStates_flatMap]
  have h1 : headerStates [TsvLine.grandTotalRow (grandTotals rs).1 (grandTotals rs).2.1
      (grandTotals rs).2.2.1 (grandTotals rs).2.2.2] = [] := rfl
  rw [h1, List.append_nil]

/-- C7: in the formatted output every data row carries exactly the state
of the section header above it; the section headers are exactly the
sorted distinct state codes, in strictly ascending order with no
duplicates; and every subtotal row equals the exact integer sums of the
data rows of its own section. -/
theorem c7_grouping_subtotals (records : List InvoiceRecord) :
    rowsMatchHeaders none (formatAsTsvLines records) = true ∧
      headerStates (formatAsTsvLines records) = stateKeys records ∧
      (headerStates (formatAsTsvLines records)).Pairwise
        (fun a b => strLtB a b = true) ∧
      subtotalsMatch (0, 0, 0, 0) (formatAsTsvLines records) = true := by
  refine ⟨?_, headerStates_format records, ?_, ?_⟩
  · simp only [formatAsTsvLines]
    exact rowsMatchHeaders_flatMap records (stateKeys records) none _ (fun c => rfl)
  · rw [headerStates_format]
    exact stateKeys_pairwise records
  · simp only [formatAsTsvLines]
    exact subtotalsMatch_flatMap records (stateKeys records) _ _ (fun a => rfl)
